import Mathlib

set_option linter.unusedVariables false

/-!
Verification of the RenderBlocks cube layout / coloring logic.

Shallow embedding of `src/components/blocks/NumberBlock.tsx` and
`src/components/ui/Mirror.tsx`.  Pixel coordinates are modelled as `Int`;
the quantity `CUBE_SIZE + CUBE_GAP` (defined in the absent
`src/types/index.ts`) is carried as a parameter `u : Int`.
-/

namespace RenderBlocks

/-- A 2D offset, mirroring the `Position` type (`{x, y}`). -/
structure Position where
  x : Int
  y : Int
deriving DecidableEq, Repr

/-- Column count used by the generic branch of `getCubePositions`
(lines 66-69): 2 columns for values below 30, `floor(value / 10)` columns
from 30 on. -/
def layoutCols (value : Nat) : Nat :=
  if 30 ≤ value then value / 10 else 2

/-- Row count `Math.ceil(value / cols)` of the generic branch (line 70),
as exact natural ceiling division. -/
def layoutRows (value : Nat) : Nat :=
  (value + layoutCols value - 1) / layoutCols value

/-- `getCubePositions(value)` (NumberBlock.tsx lines 23-82), with
`u = CUBE_SIZE + CUBE_GAP`.  Each branch reproduces the corresponding
`if`/`else if` of the source; the pushed list is the `map` over the loop
index range. -/
def getCubePositions (u : Int) (value : Nat) : List Position :=
  if value = 4 then
    -- 4 is a 2x2 square
    (List.range 4).map (fun (i : Nat) =>
      { x := ((i % 2 : Nat) : Int) * u, y := (1 - ((i / 2 : Nat) : Int)) * u })
  else if value = 7 then
    -- 7 is special - always vertical (rainbow tower)
    (List.range 7).map (fun (i : Nat) =>
      { x := 0, y := ((7 : Int) - 1 - (i : Int)) * u })
  else if value = 9 then
    -- 9 is a 3x3 square
    (List.range 9).map (fun (i : Nat) =>
      { x := ((i % 3 : Nat) : Int) * u, y := (2 - ((i / 3 : Nat) : Int)) * u })
  else if value ≤ 5 then
    -- Stack vertically (bottom to top)
    (List.range value).map (fun (i : Nat) =>
      { x := 0, y := ((value : Int) - 1 - (i : Int)) * u })
  else
    -- 6-29: 2 columns; 30-39: 3 columns, 40-49: 4 columns, etc.
    (List.range value).map (fun (i : Nat) =>
      { x := ((i % layoutCols value : Nat) : Int) * u,
        y := ((layoutRows value : Int) - 1 - ((i / layoutCols value : Nat) : Int)) * u })

/-- Modelled from the spec: `getNumberBlockColor`, the base palette of
`src/types/index.ts`, which is not among the provided sources.  Spec §4.2
defines the palette only on 1..10: 1=Red, 2=Orange, 3=Yellow, 4=Green,
5=Cyan, 6=Indigo, 7=Violet, 8=Magenta, 9=(gray gradient, produced by the
caller, so the direct entry for 9 is not pinned down), 10=White.  The
source's behavior at arguments outside 1..10 is determined neither by the
spec nor by the files under src/; the final arm below is only a
placeholder required for Lean totality, and no theorem in this file
depends on which string it returns. -/
def getNumberBlockColor (value : Int) : String :=
  if value = 1 then "Red"
  else if value = 2 then "Orange"
  else if value = 3 then "Yellow"
  else if value = 4 then "Green"
  else if value = 5 then "Cyan"
  else if value = 6 then "Indigo"
  else if value = 7 then "Violet"
  else if value = 8 then "Magenta"
  else if value = 9 then "Gray"
  else if value = 10 then "White"
  else "Gray"

/-- `NINE_GRAY_COLORS` (lines 134-144): lightest at bottom, darkest at top. -/
def NINE_GRAY_COLORS : List String :=
  ["#D0D0D0", "#D0D0D0", "#D0D0D0",
   "#A0A0A0", "#A0A0A0", "#A0A0A0",
   "#606060", "#606060", "#606060"]

/-- The JavaScript expression `NINE_GRAY_COLORS[i] || '#808080'`: indexing
outside the 9-entry array yields `undefined`, which the `||` replaces with
the fallback (every entry is a non-empty, hence truthy, string). -/
def nineGrayLookup (i : Int) : String :=
  if 0 ≤ i ∧ i < 9 then NINE_GRAY_COLORS.getD i.toNat "#808080" else "#808080"

/-- `getCubeColor(blockValue, cubeIndex, totalCubes)` (lines 147-185).
`totalCubes` is accepted and unused, exactly as in the source.  The cube
index is an `Int` so that out-of-range indexing is expressible. -/
def getCubeColor (blockValue : Nat) (cubeIndex : Int) (totalCubes : Nat) : String :=
  if blockValue = 7 then
    -- rainbow: cubeIndex 0 = bottom = color 1, cubeIndex 6 = top = color 7
    getNumberBlockColor (cubeIndex + 1)
  else if blockValue = 9 then
    -- gray gradient (light at bottom, dark at top)
    nineGrayLookup cubeIndex
  else if blockValue ≤ 10 then
    -- simple case: all cubes same color
    getNumberBlockColor blockValue
  else
    -- values > 10: first N*10 cubes are white (the tens), rest remainder color
    let tensCount : Nat := blockValue / 10 * 10
    let remainder : Nat := blockValue % 10
    if cubeIndex < (tensCount : Int) then "#FFFFFF"
    else
      let remainderIndex : Int := cubeIndex - (tensCount : Int)
      if remainder = 7 then getNumberBlockColor (remainderIndex + 1)
      else if remainder = 9 then nineGrayLookup remainderIndex
      else if remainder = 0 then "#FFFFFF"
      else getNumberBlockColor (remainder : Int)

/-- The red-outline decision of the render loop (lines 291-293):
`value >= 10 && (value % 10 === 0 || index < tensCount)` with
`tensCount = value >= 10 ? floor(value/10)*10 : 0`. -/
def hasRedOutline (value : Nat) (index : Nat) : Bool :=
  let tensCount := if 10 ≤ value then value / 10 * 10 else 0
  decide (10 ≤ value) && (decide (value % 10 = 0) || decide (index < tensCount))

/-- One step of the `reduce` computing `topCubeIndex` (lines 204-215).
The accumulator and the current index are both in range whenever the
reduce runs, so the catch-all arm (required to make the match total)
is never exercised. -/
def topCubeStep (arr : List Position) (minIdx idx : Nat) : Nat :=
  match arr.get? idx, arr.get? minIdx with
  | some pos, some minPos =>
    if pos.y < minPos.y then idx
    else if minPos.y < pos.y then minIdx
    else if pos.x < minPos.x then idx
    else minIdx
  | _, _ => minIdx

/-- `topCubeIndex` (lines 204-215): `reduce` over the position array with
initial accumulator `0`, visiting indices in order. -/
def topCubeIndex (arr : List Position) : Nat :=
  (List.range arr.length).foldl (topCubeStep arr) 0

/-- `hasFace` of cube `index` in the render loop (line 299):
`index === topCubeIndex`. -/
def hasFace (arr : List Position) (index : Nat) : Bool :=
  index == topCubeIndex arr

/-- The two stylistic star-eye colors (`'red' | 'blue'`). -/
inductive StarColor where
  | red
  | blue
deriving DecidableEq, Repr

/-- How a single rendered eye looks. -/
inductive EyeStyle where
  | normal
  | starBlue
  | starRed
deriving DecidableEq, Repr

/-- `eyeCount` (line 218): only 1 has 1 eye, others have 2. -/
def eyeCount (value : Nat) : Nat :=
  if value = 1 then 1 else 2

/-- `starEyes` (line 221): `value === 5 ? 'blue' : value === 10 ? 'red' : false`,
with `false` rendered as `none`. -/
def starEyes (value : Nat) : Option StarColor :=
  if value = 5 then some StarColor.blue
  else if value = 10 then some StarColor.red
  else none

/-- The list of eyes the `Cube` component renders on the face cube
(lines 122-124): a left eye when `eyeCount >= 1` (blue star for
`starEyes === 'blue'`, red star for `'red'`, normal otherwise), then a
right eye when `eyeCount >= 2` (red star for `starEyes === 'red'`,
normal otherwise). -/
def renderedEyes (value : Nat) : List EyeStyle :=
  (if 1 ≤ eyeCount value then
    [if starEyes value = some StarColor.blue then EyeStyle.starBlue
     else if starEyes value = some StarColor.red then EyeStyle.starRed
     else EyeStyle.normal]
   else []) ++
  (if 2 ≤ eyeCount value then
    [if starEyes value = some StarColor.red then EyeStyle.starRed
     else EyeStyle.normal]
   else [])

/-- `handleDragEnd` of `SpawnableBlock` (Mirror.tsx lines 34-56).  The
source compares `Math.sqrt(dx^2 + dy^2) > 50`; over the integers this is
equivalent to `dx^2 + dy^2 > 2500`, which is the form embedded here.
`cubeSize` stands for the `CUBE_SIZE` constant of the absent
`src/types/index.ts`; the spawned block is offset by half a cube so it
appears centred under the pointer.  Returns the `(value, position)`
payload passed to `onDragOut`, or `none` when no spawn happens. -/
def mirrorDragEnd (cubeSize : Int) (value : Nat) (startPos point : Position) :
    Option (Nat × Position) :=
  let distSq := (point.x - startPos.x) ^ 2 + (point.y - startPos.y) ^ 2
  if 2500 < distSq then
    some (value, { x := point.x - cubeSize / 2, y := point.y - cubeSize / 2 })
  else
    none

/-- Total access to a position array: `arr[i]` with a default off the end.
Every use below stays within bounds, where this agrees with JS indexing. -/
def posAt (arr : List Position) (i : Nat) : Position :=
  arr.getD i { x := 0, y := 0 }

/-- Non-strict "topmost, then leftmost" comparison: `a` is at least as high
as `b`, with ties in height broken by horizontal position. -/
def lexLe (a b : Position) : Prop :=
  a.y < b.y ∨ (a.y = b.y ∧ a.x ≤ b.x)

/-- Strict version of `lexLe`: `a` is strictly higher than `b`, or at the
same height and strictly further left. -/
def lexLt (a b : Position) : Prop :=
  a.y < b.y ∨ (a.y = b.y ∧ a.x < b.x)

/-! ### Helper lemmas about the layout -/

lemma layoutCols_pos (v : Nat) : 0 < layoutCols v := by
  unfold layoutCols
  split <;> omega

lemma getCubePositions_length (u : Int) (v : Nat) :
    (getCubePositions u v).length = v := by
  unfold getCubePositions
  repeat' split
  all_goals simp_all

lemma column_map_nodup (u : Int) (hu : u ≠ 0) (n : Nat) (V : Int) :
    ((List.range n).map (fun (i : Nat) =>
      Position.mk 0 ((V - 1 - (i : Int)) * u))).Nodup := by
  refine List.Nodup.map_on ?_ (List.nodup_range n)
  intro x _ y _ hxy
  simp only [Position.mk.injEq, true_and] at hxy
  have := mul_right_cancel₀ hu hxy
  omega

lemma grid_map_nodup (u : Int) (hu : u ≠ 0) (n c : Nat) (hc : 0 < c) (R : Int) :
    ((List.range n).map (fun (i : Nat) =>
      Position.mk (((i % c : Nat) : Int) * u) ((R - ((i / c : Nat) : Int)) * u))).Nodup := by
  refine List.Nodup.map_on ?_ (List.nodup_range n)
  intro x _ y _ hxy
  simp only [Position.mk.injEq] at hxy
  obtain ⟨h1, h2⟩ := hxy
  have hmod : x % c = y % c := by
    have := mul_right_cancel₀ hu h1
    exact_mod_cast this
  have hdiv : x / c = y / c := by
    have h3 := mul_right_cancel₀ hu h2
    omega
  calc x = c * (x / c) + x % c := (Nat.div_add_mod x c).symm
    _ = c * (y / c) + y % c := by rw [hdiv, hmod]
    _ = y := Nat.div_add_mod y c

lemma getCubePositions_nodup (u : Int) (hu : u ≠ 0) (v : Nat) :
    (getCubePositions u v).Nodup := by
  unfold getCubePositions
  repeat' split
  · exact grid_map_nodup u hu 4 2 (by norm_num) 1
  · exact column_map_nodup u hu 7 7
  · exact grid_map_nodup u hu 9 3 (by norm_num) 2
  · exact column_map_nodup u hu v (v : Int)
  · exact grid_map_nodup u hu v (layoutCols v) (layoutCols_pos v)
      ((layoutRows v : Int) - 1)

lemma posAt_grid (u : Int) (v : Nat) (h6 : 6 ≤ v) (h7 : v ≠ 7) (h9 : v ≠ 9)
    (i : Nat) (hi : i < v) :
    posAt (getCubePositions u v) i =
      { x := ((i % layoutCols v : Nat) : Int) * u,
        y := ((layoutRows v : Int) - 1 - ((i / layoutCols v : Nat) : Int)) * u } := by
  have h4 : ¬ v = 4 := by omega
  have h7n : ¬ v = 7 := h7
  have h9n : ¬ v = 9 := h9
  have h5 : ¬ v ≤ 5 := by omega
  have hlen : i < (getCubePositions u v).length := by
    rw [getCubePositions_length]; exact hi
  rw [posAt, List.getD_eq_getElem _ _ hlen]
  simp only [getCubePositions, if_neg h4, if_neg h7n, if_neg h9n, if_neg h5]
  rw [List.getElem_map, List.getElem_range]

/-! ### Claim theorems C1, C2 -/

/-- C1: for every `value ≥ 1`, `getCubePositions` returns exactly `value`
offsets, the offsets are pairwise distinct, and — being a pure function of
`value` (and the cube-size constant) — it is deterministic, so the derived
face-cube index is stable across repeated calls. -/
theorem layout_length_nodup_det (u : Int) (hu : 0 < u) (v : Nat) (hv : 1 ≤ v) :
    (getCubePositions u v).length = v ∧
    (getCubePositions u v).Nodup ∧
    getCubePositions u v = getCubePositions u v ∧
    topCubeIndex (getCubePositions u v) = topCubeIndex (getCubePositions u v) :=
  ⟨getCubePositions_length u v, getCubePositions_nodup u (by omega) v, rfl, rfl⟩

/-- Witness for C1 at `u = 45`, `value = 11`. -/
theorem layout_length_nodup_det_witness :
    (getCubePositions 45 11).length = 11 ∧
    (getCubePositions 45 11).Nodup ∧
    getCubePositions 45 11 = getCubePositions 45 11 ∧
    topCubeIndex (getCubePositions 45 11) = topCubeIndex (getCubePositions 45 11) :=
  layout_length_nodup_det 45 (by norm_num) 11 (by norm_num)

/-- C2: for `value ≥ 6`, `value ∉ {7, 9}`, the layout uses `cols = 2` for
`value ≤ 29` and `cols = floor(value / 10)` for `value ≥ 30`, with
`rows = ceil(value / cols)`, and cube `i` sits at
`x = (i % cols) * u`, `y = (rows - 1 - i / cols) * u`; in particular
`layout(11)` uses 2 columns and 6 rows, all offsets are in the first
quadrant, and exactly one cube — index 10, at `x = 0` (leftmost) — has the
minimal `y = 0` (topmost row). -/
theorem grid_layout_formula (u : Int) (hu : 0 < u) (v : Nat)
    (h6 : 6 ≤ v) (h7 : v ≠ 7) (h9 : v ≠ 9) :
    ((v ≤ 29 → layoutCols v = 2) ∧ (30 ≤ v → layoutCols v = v / 10)) ∧
    layoutRows v = (v + layoutCols v - 1) / layoutCols v ∧
    (∀ i, i < v → posAt (getCubePositions u v) i =
      { x := ((i % layoutCols v : Nat) : Int) * u,
        y := ((layoutRows v : Int) - 1 - ((i / layoutCols v : Nat) : Int)) * u }) ∧
    layoutCols 11 = 2 ∧ layoutRows 11 = 6 ∧
    posAt (getCubePositions u 11) 10 = { x := 0, y := 0 } ∧
    (∀ i, i < 11 →
      (0 ≤ (posAt (getCubePositions u 11) i).x ∧
       0 ≤ (posAt (getCubePositions u 11) i).y) ∧
      ((posAt (getCubePositions u 11) i).y = 0 ↔ i = 10)) := by
  have hu0 : u ≠ 0 := by omega
  refine ⟨⟨fun hle => ?_, fun hge => ?_⟩, rfl, fun i hi => posAt_grid u v h6 h7 h9 i hi, ?_, ?_, ?_, ?_⟩
  · unfold layoutCols; rw [if_neg]; omega
  · unfold layoutCols; rw [if_pos hge]
  · decide
  · decide
  · rw [posAt_grid u 11 (by norm_num) (by norm_num) (by norm_num) 10 (by norm_num)]
    simp [layoutCols, layoutRows]
  · intro i hi
    rw [posAt_grid u 11 (by norm_num) (by norm_num) (by norm_num) i hi]
    have hcols : layoutCols 11 = 2 := by decide
    have hrows : layoutRows 11 = 6 := by decide
    rw [hcols, hrows]
    constructor
    · constructor
      · positivity
      · have : ((i / 2 : Nat) : Int) ≤ 5 := by omega
        have h1 : (0 : Int) ≤ (6 : Int) - 1 - ((i / 2 : Nat) : Int) := by omega
        positivity
    · simp only
      constructor
      · intro hy
        rcases mul_eq_zero.mp hy with h | h
        · omega
        · omega
      · intro hii
        subst hii
        norm_num

/-- Witness for C2 at `u = 45`, `value = 11`. -/
theorem grid_layout_formula_witness :
    ((11 ≤ 29 → layoutCols 11 = 2) ∧ (30 ≤ 11 → layoutCols 11 = 11 / 10)) ∧
    layoutRows 11 = (11 + layoutCols 11 - 1) / layoutCols 11 ∧
    (∀ i, i < 11 → posAt (getCubePositions 45 11) i =
      { x := ((i % layoutCols 11 : Nat) : Int) * 45,
        y := ((layoutRows 11 : Int) - 1 - ((i / layoutCols 11 : Nat) : Int)) * 45 }) ∧
    layoutCols 11 = 2 ∧ layoutRows 11 = 6 ∧
    posAt (getCubePositions 45 11) 10 = { x := 0, y := 0 } ∧
    (∀ i, i < 11 →
      (0 ≤ (posAt (getCubePositions 45 11) i).x ∧
       0 ≤ (posAt (getCubePositions 45 11) i).y) ∧
      ((posAt (getCubePositions 45 11) i).y = 0 ↔ i = 10)) :=
  grid_layout_formula 45 (by norm_num) 11 (by norm_num) (by norm_num) (by norm_num)

lemma posAt_seven (u : Int) (i : Nat) (hi : i < 7) :
    posAt (getCubePositions u 7) i = { x := 0, y := ((7 : Int) - 1 - (i : Int)) * u } := by
  have hlen : i < (getCubePositions u 7).length := by
    rw [getCubePositions_length]; exact hi
  rw [posAt, List.getD_eq_getElem _ _ hlen]
  simp only [getCubePositions]
  norm_num

lemma posAt_nine (u : Int) (i : Nat) (hi : i < 9) :
    posAt (getCubePositions u 9) i =
      { x := ((i % 3 : Nat) : Int) * u, y := (2 - ((i / 3 : Nat) : Int)) * u } := by
  have hlen : i < (getCubePositions u 9).length := by
    rw [getCubePositions_length]; exact hi
  rw [posAt, List.getD_eq_getElem _ _ hlen]
  simp only [getCubePositions]
  norm_num

lemma getCubeColor_gt10 (v : Nat) (hv : 10 < v) (tc : Nat) (j : Nat) :
    getCubeColor v (((v / 10 * 10 : Nat) : Int) + (j : Int)) tc =
      (if v % 10 = 7 then getNumberBlockColor ((j : Int) + 1)
       else if v % 10 = 9 then nineGrayLookup (j : Int)
       else if v % 10 = 0 then "#FFFFFF"
       else getNumberBlockColor ((v % 10 : Nat) : Int)) := by
  have h7 : ¬ v = 7 := by omega
  have h9 : ¬ v = 9 := by omega
  have h10 : ¬ v ≤ 10 := by omega
  simp only [getCubeColor, if_neg h7, if_neg h9, if_neg h10]
  rw [if_neg (by push_cast; omega)]
  have hri : ((v / 10 * 10 : Nat) : Int) + (j : Int) - ((v / 10 * 10 : Nat) : Int)
      = (j : Int) := by ring
  rw [hri]

/-! ### Claim theorems C3-C6 -/

/-- C3: for `value > 10` with `tensCount = floor(value/10)*10` and
`remainder = value % 10`, every cube with index below `tensCount` is white
and carries the red highlight outline, and cube `tensCount + j` of the
block is colored exactly as cube `j` of a standalone block of value
`remainder`. -/
theorem tens_remainder_coloring (v : Nat) (hv : 10 < v) (tc tc2 : Nat) :
    (∀ i : Nat, i < v / 10 * 10 →
      getCubeColor v (i : Int) tc = "#FFFFFF" ∧ hasRedOutline v i = true) ∧
    (∀ j : Nat, j < v % 10 →
      getCubeColor v (((v / 10 * 10 : Nat) : Int) + (j : Int)) tc =
        getCubeColor (v % 10) (j : Int) tc2) := by
  have h7 : ¬ v = 7 := by omega
  have h9 : ¬ v = 9 := by omega
  have h10 : ¬ v ≤ 10 := by omega
  constructor
  · intro i hi
    constructor
    · simp only [getCubeColor, if_neg h7, if_neg h9, if_neg h10]
      rw [if_pos (by push_cast; omega)]
    · simp only [hasRedOutline]
      simp only [Bool.and_eq_true, Bool.or_eq_true, decide_eq_true_eq]
      refine ⟨by omega, Or.inr ?_⟩
      rw [if_pos (by omega : 10 ≤ v)]
      exact hi
  · intro j hj
    rw [getCubeColor_gt10 v hv tc j]
    by_cases h7r : v % 10 = 7
    · rw [if_pos h7r, h7r]
      simp [getCubeColor]
    · by_cases h9r : v % 10 = 9
      · rw [if_neg h7r, if_pos h9r, h9r]
        simp [getCubeColor]
      · have h0r : ¬ v % 10 = 0 := by omega
        rw [if_neg h7r, if_neg h9r, if_neg h0r]
        simp only [getCubeColor, if_neg h7r, if_neg h9r,
          if_pos (by omega : v % 10 ≤ 10)]

/-- Witness for C3 at `value = 23` (`tensCount = 20`, `remainder = 3`). -/
theorem tens_remainder_coloring_witness :
    (∀ i : Nat, i < 23 / 10 * 10 →
      getCubeColor 23 (i : Int) 23 = "#FFFFFF" ∧ hasRedOutline 23 i = true) ∧
    (∀ j : Nat, j < 23 % 10 →
      getCubeColor 23 (((23 / 10 * 10 : Nat) : Int) + (j : Int)) 23 =
        getCubeColor (23 % 10) (j : Int) 3) :=
  tens_remainder_coloring 23 (by norm_num) 23 3

/-- C4: `getCubeColor(7, i)` is the base-palette color of `i + 1`; the
seven colors are pairwise distinct; and in the layout of 7 the cube of
index 0 is the bottommost (largest `y`), so bottom = color-of-1 and
top = color-of-7. -/
theorem rainbow_seven (u : Int) (hu : 0 < u) (tc : Nat) :
    (∀ i : Nat, i < 7 →
      getCubeColor 7 (i : Int) tc = getNumberBlockColor ((i : Int) + 1)) ∧
    ((List.range 7).map (fun (i : Nat) => getCubeColor 7 (i : Int) 7)).Nodup ∧
    (∀ i, i < 7 →
      (posAt (getCubePositions u 7) i).y = ((7 : Int) - 1 - (i : Int)) * u) ∧
    (∀ i, 0 < i → i < 7 →
      (posAt (getCubePositions u 7) i).y < (posAt (getCubePositions u 7) 0).y) := by
  refine ⟨?_, by decide, ?_, ?_⟩
  · intro i hi
    simp [getCubeColor]
  · intro i hi
    rw [posAt_seven u i hi]
  · intro i h0 h7
    rw [posAt_seven u i h7, posAt_seven u 0 (by norm_num)]
    have hlt : (7 : Int) - 1 - (i : Int) < 7 - 1 - ((0 : Nat) : Int) := by
      push_cast; omega
    exact mul_lt_mul_of_pos_right hlt hu

/-- Witness for C4 at `u = 45`, `totalCubes = 7`. -/
theorem rainbow_seven_witness :
    (∀ i : Nat, i < 7 →
      getCubeColor 7 (i : Int) 7 = getNumberBlockColor ((i : Int) + 1)) ∧
    ((List.range 7).map (fun (i : Nat) => getCubeColor 7 (i : Int) 7)).Nodup ∧
    (∀ i, i < 7 →
      (posAt (getCubePositions 45 7) i).y = ((7 : Int) - 1 - (i : Int)) * 45) ∧
    (∀ i, 0 < i → i < 7 →
      (posAt (getCubePositions 45 7) i).y < (posAt (getCubePositions 45 7) 0).y) :=
  rainbow_seven 45 (by norm_num) 7

/-- C5: `getCubeColor(9, ·)` uses exactly the three fixed gray shades,
lightest on indices 0-2, mid on 3-5, darkest on 6-8; in the 3x3 layout of
9, indices 0-2 form the bottom row (`y = 2u`), 3-5 the middle row
(`y = u`), 6-8 the top row (`y = 0`), with the rows ordered top < middle
< bottom in `y`. -/
theorem nine_gray_rows (u : Int) (hu : 0 < u) (tc : Nat) :
    ((List.range 9).map (fun (i : Nat) => getCubeColor 9 (i : Int) tc)) =
      ["#D0D0D0", "#D0D0D0", "#D0D0D0", "#A0A0A0", "#A0A0A0", "#A0A0A0",
       "#606060", "#606060", "#606060"] ∧
    (∀ i, i < 9 →
      (i ≤ 2 → (posAt (getCubePositions u 9) i).y = 2 * u) ∧
      (3 ≤ i → i ≤ 5 → (posAt (getCubePositions u 9) i).y = u) ∧
      (6 ≤ i → (posAt (getCubePositions u 9) i).y = 0)) ∧
    (posAt (getCubePositions u 9) 8).y < (posAt (getCubePositions u 9) 4).y ∧
    (posAt (getCubePositions u 9) 4).y < (posAt (getCubePositions u 9) 0).y := by
  refine ⟨?_, ?_, ?_, ?_⟩
  · rfl
  · intro i hi
    rw [posAt_nine u i hi]
    refine ⟨fun h2 => ?_, fun h3 h5 => ?_, fun h6 => ?_⟩
    · have hd : i / 3 = 0 := by omega
      rw [hd]; push_cast; ring
    · have hd : i / 3 = 1 := by omega
      rw [hd]; push_cast; ring
    · have hd : i / 3 = 2 := by omega
      rw [hd]; push_cast; ring
  · rw [posAt_nine u 8 (by norm_num), posAt_nine u 4 (by norm_num)]
    simp only
    norm_num
    omega
  · rw [posAt_nine u 4 (by norm_num), posAt_nine u 0 (by norm_num)]
    simp only
    norm_num
    omega

/-- Witness for C5 at `u = 45`, `totalCubes = 9`. -/
theorem nine_gray_rows_witness :
    ((List.range 9).map (fun (i : Nat) => getCubeColor 9 (i : Int) 9)) =
      ["#D0D0D0", "#D0D0D0", "#D0D0D0", "#A0A0A0", "#A0A0A0", "#A0A0A0",
       "#606060", "#606060", "#606060"] ∧
    (∀ i, i < 9 →
      (i ≤ 2 → (posAt (getCubePositions 45 9) i).y = 2 * 45) ∧
      (3 ≤ i → i ≤ 5 → (posAt (getCubePositions 45 9) i).y = 45) ∧
      (6 ≤ i → (posAt (getCubePositions 45 9) i).y = 0)) ∧
    (posAt (getCubePositions 45 9) 8).y < (posAt (getCubePositions 45 9) 4).y ∧
    (posAt (getCubePositions 45 9) 4).y < (posAt (getCubePositions 45 9) 0).y :=
  nine_gray_rows 45 (by norm_num) 9

/-- C6: the special-case layouts — `layout(4)` is a 2x2 square filled
row-major with rows bottom-to-top, `layout(7)` a single vertical column
of 7 bottom-to-top, `layout(9)` a 3x3 square bottom-to-top, and for
`value ∈ {1, 2, 3, 5}` the offsets form a single vertical column (all
`x = 0`), bottom-to-top. -/
theorem special_layouts (u : Int) :
    getCubePositions u 1 = [{ x := 0, y := 0 }] ∧
    getCubePositions u 2 = [{ x := 0, y := u }, { x := 0, y := 0 }] ∧
    getCubePositions u 3 =
      [{ x := 0, y := 2 * u }, { x := 0, y := u }, { x := 0, y := 0 }] ∧
    getCubePositions u 5 =
      [{ x := 0, y := 4 * u }, { x := 0, y := 3 * u }, { x := 0, y := 2 * u },
       { x := 0, y := u }, { x := 0, y := 0 }] ∧
    getCubePositions u 4 =
      [{ x := 0, y := u }, { x := u, y := u }, { x := 0, y := 0 }, { x := u, y := 0 }] ∧
    getCubePositions u 7 =
      [{ x := 0, y := 6 * u }, { x := 0, y := 5 * u }, { x := 0, y := 4 * u },
       { x := 0, y := 3 * u }, { x := 0, y := 2 * u }, { x := 0, y := u },
       { x := 0, y := 0 }] ∧
    getCubePositions u 9 =
      [{ x := 0, y := 2 * u }, { x := u, y := 2 * u }, { x := 2 * u, y := 2 * u },
       { x := 0, y := u }, { x := u, y := u }, { x := 2 * u, y := u },
       { x := 0, y := 0 }, { x := u, y := 0 }, { x := 2 * u, y := 0 }] := by
  refine ⟨?_, ?_, ?_, ?_, ?_, ?_, ?_⟩ <;>
    simp [getCubePositions, List.range_succ, Position.mk.injEq]

/-! ### Claim theorems C8-C10 -/

/-- C8: eye styling on the face cube — value 1 renders only the left eye
(one eye total), value 5 a blue star left eye and a normal right eye,
value 10 two red star eyes, and every other value two normal eyes. -/
theorem eye_styles (v : Nat) (hv : 1 ≤ v) :
    (v = 1 → renderedEyes v = [EyeStyle.normal]) ∧
    (v = 5 → renderedEyes v = [EyeStyle.starBlue, EyeStyle.normal]) ∧
    (v = 10 → renderedEyes v = [EyeStyle.starRed, EyeStyle.starRed]) ∧
    (v ≠ 1 → v ≠ 5 → v ≠ 10 →
      renderedEyes v = [EyeStyle.normal, EyeStyle.normal]) := by
  refine ⟨fun h => by subst h; decide, fun h => by subst h; decide,
    fun h => by subst h; decide, fun h1 h5 h10 => ?_⟩
  simp [renderedEyes, eyeCount, starEyes, h1, h5, h10]

/-- Witness for C8 at `value = 10`. -/
theorem eye_styles_witness :
    renderedEyes 10 = [EyeStyle.starRed, EyeStyle.starRed] :=
  (eye_styles 10 (by norm_num)).2.2.1 rfl

/-- C9: a palette drag-release spawns a block (delivering the value and
the drop position, offset by half a cube) exactly when the squared drag
distance exceeds `50^2 = 2500` — i.e. the Euclidean distance exceeds 50;
at distance 50 or less nothing spawns. -/
theorem spawn_threshold (cubeSize : Int) (value : Nat) (s p : Position) :
    (2500 < (p.x - s.x) ^ 2 + (p.y - s.y) ^ 2 →
      mirrorDragEnd cubeSize value s p =
        some (value, { x := p.x - cubeSize / 2, y := p.y - cubeSize / 2 })) ∧
    ((p.x - s.x) ^ 2 + (p.y - s.y) ^ 2 ≤ 2500 →
      mirrorDragEnd cubeSize value s p = none) := by
  constructor
  · intro h
    simp only [mirrorDragEnd, if_pos h]
  · intro h
    simp only [mirrorDragEnd, if_neg (not_lt.mpr h)]

/-- Witness for C9: a release 51 pixels right of the start spawns, a
release at distance exactly 50 (a 30-40-50 triangle) does not. -/
theorem spawn_threshold_witness :
    mirrorDragEnd 45 3 { x := 0, y := 0 } { x := 51, y := 0 } =
      some (3, { x := 51 - 45 / 2, y := 0 - 45 / 2 }) ∧
    mirrorDragEnd 45 3 { x := 0, y := 0 } { x := 30, y := 40 } = none :=
  ⟨(spawn_threshold 45 3 { x := 0, y := 0 } { x := 51, y := 0 }).1 (by norm_num),
   (spawn_threshold 45 3 { x := 0, y := 0 } { x := 30, y := 40 }).2 (by norm_num)⟩

/-! ### The face cube (claim C7) -/

lemma lexLe_refl (a : Position) : lexLe a a :=
  Or.inr ⟨rfl, le_refl _⟩

lemma lexLe_trans {a b c : Position} (h1 : lexLe a b) (h2 : lexLe b c) :
    lexLe a c := by
  rcases h1 with h1 | ⟨hy1, hx1⟩ <;> rcases h2 with h2 | ⟨hy2, hx2⟩
  · exact Or.inl (h1.trans h2)
  · exact Or.inl (hy2 ▸ h1)
  · exact Or.inl (hy1 ▸ h2)
  · exact Or.inr ⟨hy1.trans hy2, hx1.trans hx2⟩

lemma topCubeStep_spec (arr : List Position) (acc i : Nat)
    (hacc : acc < arr.length) (hi : i < arr.length) :
    topCubeStep arr acc i < arr.length ∧
    lexLe (posAt arr (topCubeStep arr acc i)) (posAt arr acc) ∧
    lexLe (posAt arr (topCubeStep arr acc i)) (posAt arr i) := by
  have hgi : arr.get? i = some (posAt arr i) := by
    rw [List.get?_eq_getElem?, List.getElem?_eq_getElem hi, posAt,
      List.getD_eq_getElem _ _ hi]
  have hga : arr.get? acc = some (posAt arr acc) := by
    rw [List.get?_eq_getElem?, List.getElem?_eq_getElem hacc, posAt,
      List.getD_eq_getElem _ _ hacc]
  unfold topCubeStep
  rw [hgi, hga]
  dsimp only
  by_cases h1 : (posAt arr i).y < (posAt arr acc).y
  · rw [if_pos h1]
    exact ⟨hi, Or.inl h1, lexLe_refl _⟩
  · rw [if_neg h1]
    by_cases h2 : (posAt arr acc).y < (posAt arr i).y
    · rw [if_pos h2]
      exact ⟨hacc, lexLe_refl _, Or.inl h2⟩
    · rw [if_neg h2]
      have hy : (posAt arr i).y = (posAt arr acc).y :=
        le_antisymm (not_lt.mp h2) (not_lt.mp h1)
      by_cases h3 : (posAt arr i).x < (posAt arr acc).x
      · rw [if_pos h3]
        exact ⟨hi, Or.inr ⟨hy, le_of_lt h3⟩, lexLe_refl _⟩
      · rw [if_neg h3]
        exact ⟨hacc, lexLe_refl _, Or.inr ⟨hy.symm, not_lt.mp h3⟩⟩

lemma foldl_topCubeStep_spec (arr : List Position) (l : List Nat) :
    ∀ acc : Nat, acc < arr.length → (∀ i ∈ l, i < arr.length) →
      l.foldl (topCubeStep arr) acc < arr.length ∧
      lexLe (posAt arr (l.foldl (topCubeStep arr) acc)) (posAt arr acc) ∧
      ∀ i ∈ l, lexLe (posAt arr (l.foldl (topCubeStep arr) acc)) (posAt arr i) := by
  induction l with
  | nil =>
    intro acc hacc _
    exact ⟨hacc, lexLe_refl _, by simp⟩
  | cons j t ih =>
    intro acc hacc hl
    have hj : j < arr.length := hl j (List.mem_cons_self j t)
    obtain ⟨hstep, hsa, hsj⟩ := topCubeStep_spec arr acc j hacc hj
    have ht : ∀ i ∈ t, i < arr.length := fun i hi => hl i (List.mem_cons_of_mem j hi)
    obtain ⟨h1, h2, h3⟩ := ih (topCubeStep arr acc j) hstep ht
    rw [List.foldl_cons]
    refine ⟨h1, lexLe_trans h2 hsa, ?_⟩
    intro i hi
    rcases List.mem_cons.mp hi with rfl | hit
    · exact lexLe_trans h2 hsj
    · exact h3 i hit

lemma topCubeIndex_spec (arr : List Position) (hne : 0 < arr.length) :
    topCubeIndex arr < arr.length ∧
    ∀ i, i < arr.length → lexLe (posAt arr (topCubeIndex arr)) (posAt arr i) := by
  obtain ⟨h1, _, h3⟩ := foldl_topCubeStep_spec arr (List.range arr.length) 0 hne
    (fun i hi => List.mem_range.mp hi)
  exact ⟨h1, fun i hi => h3 i (List.mem_range.mpr hi)⟩

lemma posAt_inj (arr : List Position) (h : arr.Nodup) {i j : Nat}
    (hi : i < arr.length) (hj : j < arr.length)
    (hij : posAt arr i = posAt arr j) : i = j := by
  rw [posAt, List.getD_eq_getElem _ _ hi, posAt, List.getD_eq_getElem _ _ hj] at hij
  exact (List.Nodup.getElem_inj_iff h).mp hij

/-- C7: for every `value ≥ 1` exactly one cube bears the face — the cube
of index `topCubeIndex`, which is in range, is flagged by `hasFace` and no
other index is, and whose offset is strictly minimal in the
(smallest `y`, then smallest `x`) order among all cubes of the layout. -/
theorem face_cube_topmost_leftmost (u : Int) (hu : 0 < u) (v : Nat) (hv : 1 ≤ v) :
    topCubeIndex (getCubePositions u v) < (getCubePositions u v).length ∧
    (∀ i, i < (getCubePositions u v).length →
      (hasFace (getCubePositions u v) i = true ↔
        i = topCubeIndex (getCubePositions u v))) ∧
    ∀ j, j < (getCubePositions u v).length →
      j ≠ topCubeIndex (getCubePositions u v) →
      lexLt (posAt (getCubePositions u v) (topCubeIndex (getCubePositions u v)))
        (posAt (getCubePositions u v) j) := by
  have hne : 0 < (getCubePositions u v).length := by
    rw [getCubePositions_length]; omega
  obtain ⟨hti, hmin⟩ := topCubeIndex_spec (getCubePositions u v) hne
  refine ⟨hti, ?_, ?_⟩
  · intro i hi
    simp [hasFace]
  · intro j hj hne2
    have hle := hmin j hj
    rcases hle with h | ⟨hy, hx⟩
    · exact Or.inl h
    · refine Or.inr ⟨hy, lt_of_le_of_ne hx ?_⟩
      intro hxeq
      apply hne2
      have hpos : posAt (getCubePositions u v) (topCubeIndex (getCubePositions u v))
          = posAt (getCubePositions u v) j := by
        calc posAt (getCubePositions u v) (topCubeIndex (getCubePositions u v))
            = Position.mk
                (posAt (getCubePositions u v) (topCubeIndex (getCubePositions u v))).x
                (posAt (getCubePositions u v) (topCubeIndex (getCubePositions u v))).y := rfl
          _ = Position.mk (posAt (getCubePositions u v) j).x
                (posAt (getCubePositions u v) j).y := by rw [hxeq, hy]
          _ = posAt (getCubePositions u v) j := rfl
      exact (posAt_inj (getCubePositions u v)
        (getCubePositions_nodup u (by omega) v) hti hj hpos).symm

/-- Witness for C7 at `u = 45`, `value = 11`. -/
theorem face_cube_topmost_leftmost_witness :
    topCubeIndex (getCubePositions 45 11) < (getCubePositions 45 11).length ∧
    (∀ i, i < (getCubePositions 45 11).length →
      (hasFace (getCubePositions 45 11) i = true ↔
        i = topCubeIndex (getCubePositions 45 11))) ∧
    ∀ j, j < (getCubePositions 45 11).length →
      j ≠ topCubeIndex (getCubePositions 45 11) →
      lexLt (posAt (getCubePositions 45 11) (topCubeIndex (getCubePositions 45 11)))
        (posAt (getCubePositions 45 11) j) :=
  face_cube_topmost_leftmost 45 (by norm_num) 11 (by norm_num)

end RenderBlocks
